import Mathlib

/-!
# Verification of the LVGL map-tile converter

A shallow embedding, in Lean 4, of `script/lvgl_map_tile_converter.py`:
a script that converts a `zoom/x/y.png` tree of raster map tiles into
LVGL v9 binary images (RGB565).  Python machine-free semantics are
modelled over `Nat`, `List Char` (Python `str`), and `Option`/`Except`
for operations that can raise.

Embedded functions keep the source's names (`to_rgb565`,
`clean_tile_name`, `make_lvgl_bin`, `iter_tile_paths`,
`convert_all_tiles`); helper definitions and lemmas carry their own
names.
-/

namespace MapTiles

set_option maxRecDepth 8192

/-! ## Rgb565Codec

`def to_rgb565(r, g, b): return ((r & 0xF8) << 8) | ((g & 0xFC) << 3) | (b >> 3)`
Python ints are unbounded, so plain `Nat` bitwise operations model this
exactly. -/

def to_rgb565 (r g b : Nat) : Nat :=
  ((r &&& 0xF8) <<< 8) ||| ((g &&& 0xFC) <<< 3) ||| (b >>> 3)

/-! ## TileNameNormalizer

`clean_tile_name` repeatedly applies `os.path.splitext` and keeps
stripping while the extension (lower-cased) is one of
`[".png", ".bin", ".jpg", ".jpeg"]`.

`os.path.splitext` (CPython `genericpath._splitext`) on a bare filename
(no path separators, which is what `clean_tile_name` receives): the
extension starts at the last `'.'`, unless every character before that
dot is itself a dot (leading dots are not extensions) or there is no dot
at all, in which case the extension is empty.  We model it by scanning
the reversed character list. -/

def splitextL (cs : List Char) : List Char × List Char :=
  let rev := cs.reverse
  let extRev := rev.takeWhile (· ≠ '.')
  match rev.dropWhile (· ≠ '.') with
  | [] => (cs, [])
  | d :: rootRev =>
      if rootRev.all (· = '.') then (cs, [])
      else (rootRev.reverse, d :: extRev.reverse)

/-- The recognized extension set of `clean_tile_name`
(`[".png", ".bin", ".jpg", ".jpeg"]`). -/
def recognizedExts : List (List Char) :=
  [".png".data, ".bin".data, ".jpg".data, ".jpeg".data]

/-- The `while True` loop of `clean_tile_name`.  The loop strips at
least one character per iteration, so any `fuel > cs.length` is enough;
the fuel is purely a termination device for the Python `while`. -/
def cleanAux : Nat → List Char → List Char
  | 0, cs => cs
  | fuel+1, cs =>
    match splitextL cs with
    | (name, ext) =>
      if (ext.map Char.toLower) ∈ recognizedExts then cleanAux fuel name
      else cs

def clean_tile_name (filename : String) : String :=
  ⟨cleanAux (filename.data.length + 1) filename.data⟩

/-! ## TileBinaryEncoder

`make_lvgl_bin` (the pure encoding part, lines 31-54).  The decode step
(`Image.open(...).convert("RGB")`) is the external PixelSource
collaborator; its output is modelled as a `DecodedImage`: width, height
and the row-major pixel grid (PIL `pixels[x, y]` reads row `y`, column
`x`).

`struct.pack("<B", v)` and `struct.pack("<H", v)` raise `struct.error`
when `v` is out of range, so they are modelled as `Option`. -/

structure DecodedImage where
  w : Nat
  h : Nat
  pixels : List (Nat × Nat × Nat)

/-- `struct.pack("<B", n)`: one byte, or `struct.error`. -/
def packB (n : Nat) : Option (List Nat) :=
  if n < 256 then some [n] else none

/-- `struct.pack("<H", n)`: two little-endian bytes, or `struct.error`. -/
def packH (n : Nat) : Option (List Nat) :=
  if n < 65536 then some [n % 256, n / 256] else none

/-- PIL `pixels[x, y]` on a row-major grid. -/
def pixelAt (img : DecodedImage) (x y : Nat) : Nat × Nat × Nat :=
  img.pixels.getD (y * img.w + x) (0, 0, 0)

/-- The header construction of `make_lvgl_bin` (lines 35-47), with
`stride = (w * 16 + 7) // 8`. -/
def headerBytes (w h : Nat) : Option (List Nat) := do
  let stride := (w * 16 + 7) / 8
  let b0 ← packB 0x19
  let b1 ← packB 0x12
  let b2 ← packH 0x00
  let b3 ← packH w
  let b4 ← packH h
  let b5 ← packH stride
  let b6 ← packH 0
  pure (b0 ++ b1 ++ b2 ++ b3 ++ b4 ++ b5 ++ b6)

/-- The body loop of `make_lvgl_bin` (lines 49-54): for `y in range(h)`,
for `x in range(w)`, append `pack("<H", to_rgb565(*pixels[x, y]))`. -/
def bodyBytes (img : DecodedImage) : Option (List Nat) :=
  (List.range img.h).foldlM (fun acc y =>
    (List.range img.w).foldlM (fun acc2 x => do
      let p := pixelAt img x y
      let bs ← packH (to_rgb565 p.1 p.2.1 p.2.2)
      pure (acc2 ++ bs)) acc) []

/-- The full byte sequence `header + body` encoded by `make_lvgl_bin`
before any file operation takes place. -/
def make_lvgl_bin_bytes (img : DecodedImage) : Option (List Nat) := do
  let hdr ← headerBytes img.w img.h
  let body ← bodyBytes img
  pure (hdr ++ body)

/-- The sequence of buffers passed to `f.write` by `make_lvgl_bin`
(lines 63-65): first the header, then the body, two separate calls. -/
def make_lvgl_bin_writes (img : DecodedImage) : Option (List (List Nat)) := do
  let hdr ← headerBytes img.w img.h
  let body ← bodyBytes img
  pure [hdr, body]

/-- All pixels of the image are genuine RGB byte triples (what PIL's
`convert("RGB")` guarantees). -/
def byteTriples (img : DecodedImage) : Prop :=
  ∀ p ∈ img.pixels, p.1 < 256 ∧ p.2.1 < 256 ∧ p.2.2 < 256

/-! ### Spec-side layout (from the claim text, for refinement)

These two definitions transcribe the claimed output layout, to be
compared against the encoder above. -/

/-- Little-endian 16-bit byte pair, as the claim describes it. -/
def le16 (v : Nat) : List Nat := [v % 256, v / 256]

/-- Claimed header: magic, color format, flags, width, height,
`stride = w*2`, reserved. -/
def headerSpec (w h : Nat) : List Nat :=
  [0x19, 0x12, 0, 0] ++ le16 w ++ le16 h ++ le16 (w * 2) ++ [0, 0]

/-- Claimed body: each pixel, row-major, as little-endian RGB565. -/
def bodySpec (img : DecodedImage) : List Nat :=
  img.pixels.flatMap (fun p => le16 (to_rgb565 p.1 p.2.1 p.2.2))

/-! ## Destination write phase of `make_lvgl_bin` (lines 56-65)

The state of the filesystem at the destination path, and the effect of
the guarded `os.rmdir` plus the `open(bin_path, "wb")` write.  OS
semantics follow the Python library documentation: `os.rmdir` removes an
empty directory and raises `OSError` on a non-empty one; opening a
directory for writing raises `IsADirectoryError`.  `os.makedirs` on the
parent directory does not touch the destination path itself and is not
represented. -/

inductive DestState
  | absent
  | file (content : List Nat)
  | dir (isEmpty : Bool)
deriving DecidableEq

def isdirDest : DestState → Bool
  | .dir _ => true
  | _ => false

/-- `os.rmdir(bin_path)`. -/
def rmdir : DestState → Except String DestState
  | .dir true => .ok .absent
  | .dir false => .error "OSError: directory not empty"
  | .file _ => .error "NotADirectoryError"
  | .absent => .error "FileNotFoundError"

/-- `open(bin_path, "wb")` followed by writing all buffers. -/
def openWriteAll : DestState → List Nat → Except String DestState
  | .dir _, _ => .error "IsADirectoryError"
  | _, bytes => .ok (.file bytes)

/-- Lines 58-65: `if os.path.isdir(bin_path): os.rmdir(bin_path)`, then
the truncating write of header and body. -/
def writePhase (dest : DestState) (bytes : List Nat) : Except String DestState :=
  match (if isdirDest dest then rmdir dest else .ok dest) with
  | .error e => .error e
  | .ok d1 => openWriteAll d1 bytes

/-- One whole `make_lvgl_bin` call on an already-decoded image: encode
in memory, then run the write phase.  An uncaught `struct.error` during
encoding aborts before any file operation. -/
def make_lvgl_bin_run (img : DecodedImage) (dest : DestState) : Except String DestState :=
  match make_lvgl_bin_bytes img with
  | none => .error "struct.error"
  | some bs => writePhase dest bs

/-! ## BatchScheduler, serial path (lines 116-123)

`convert_all_tiles` with `jobs <= 1` runs
`for inp, outp in tasks: try: make_lvgl_bin(inp, outp) except Exception as e: print(...)`.
The per-task body (decode + encode + write) is abstracted as an
`exec : Task → Except String Unit`; the observable outcome stream is one
event per iteration: the `[OK]` print from `make_lvgl_bin`, or the
`[Error] Failed to convert {inp} → {e}` print from the `except` arm. -/

structure Task where
  inp : String
  outp : String
deriving DecidableEq

inductive Event
  | ok (t : Task)
  | failed (src : String) (reason : String)
deriving DecidableEq

def runSerial (exec : Task → Except String Unit) : List Task → List Event
  | [] => []
  | t :: ts =>
    (match exec t with
     | .ok _ => .ok t
     | .error e => .failed t.inp e) :: runSerial exec ts

/-! ## TileTreeDiscovery (lines 71-89)

A directory listing is a list of named entries (`FsNode`).  `sorted()`
is Python's stable ascending sort; on strings it is code-point
lexicographic order, modelled by `lexLe` (kernel-reducible, unlike
`String.lt`'s iterator-based decision procedure).  `str.isdigit` and
`str.lower` are modelled for the ASCII range.

`os.path.join` concatenates components with a separator; since listing
names never contain a separator, a path is faithfully a root marker
followed by the list of joined segments (`List String`). -/

inductive FsNode
  | file
  | dir (entries : List (String × FsNode))

/-- Code-point lexicographic order on strings (Python `<=` on `str`). -/
def lexLe : List Char → List Char → Bool
  | [], _ => true
  | _ :: _, [] => false
  | a :: as, b :: bs =>
    if a.toNat < b.toNat then true
    else if b.toNat < a.toNat then false
    else lexLe as bs

/-- `sorted(os.listdir(...))`. -/
def sortEntries {α : Type} (l : List (String × α)) : List (String × α) :=
  List.insertionSort (fun a b => lexLe a.1.data b.1.data = true) l

/-- Python `str.isdigit` (ASCII): nonempty and all decimal digits. -/
def isdigit (s : String) : Bool := !s.data.isEmpty && s.data.all Char.isDigit

/-- `y_file.lower().endswith(".png")` (ASCII lower-casing). -/
def endsWithPng (s : String) : Bool := ".png".data.isSuffixOf (s.data.map Char.toLower)

/-- `_iter_tile_paths`: walk sorted zoom entries (must be directories
with numeric names), sorted x entries (same), then every listing entry
whose name ends in `.png` case-insensitively (no file check), yielding
`(input_path, output_path)`. -/
def iter_tile_paths (inRoot outRoot : List String) (rootEntries : List (String × FsNode)) :
    List (List String × List String) :=
  (sortEntries rootEntries).flatMap fun ze =>
    match ze with
    | (_, .file) => []
    | (zoom, .dir zentries) =>
      if isdigit zoom then
        (sortEntries zentries).flatMap fun xe =>
          match xe with
          | (_, .file) => []
          | (x_tile, .dir xentries) =>
            if isdigit x_tile then
              (sortEntries xentries).flatMap fun ye =>
                if endsWithPng ye.1 then
                  [(inRoot ++ [zoom, x_tile, ye.1],
                    outRoot ++ [zoom, x_tile, clean_tile_name ye.1 ++ ".bin"])]
                else []
            else []
      else []

/-! ### splitext / clean lemmas -/

theorem splitextL_append (cs : List Char) :
    (splitextL cs).1 ++ (splitextL cs).2 = cs := by
  unfold splitextL
  simp only []
  have hsplit := List.takeWhile_append_dropWhile (fun c => decide (c ≠ '.')) cs.reverse
  cases hdw : cs.reverse.dropWhile (fun c => decide (c ≠ '.')) with
  | nil => simp
  | cons d rootRev =>
    by_cases hall : rootRev.all (fun c => decide (c = '.'))
    · simp [hall]
    · simp only [hall]
      rw [hdw] at hsplit
      conv_rhs => rw [← List.reverse_reverse cs, ← hsplit]
      simp

theorem splitextL_root_lt {cs : List Char} (h : (splitextL cs).2 ≠ []) :
    (splitextL cs).1.length < cs.length := by
  have happ := splitextL_append cs
  have hlen : (splitextL cs).1.length + (splitextL cs).2.length = cs.length := by
    rw [← List.length_append, happ]
  have : (splitextL cs).2.length ≠ 0 := by
    simpa [List.length_eq_zero] using h
  omega

theorem recognized_ne_nil {e : List Char} (h : e.map Char.toLower ∈ recognizedExts) :
    e ≠ [] := by
  intro he
  subst he
  simp [recognizedExts] at h

theorem cleanAux_length : ∀ (fuel : Nat) (cs : List Char),
    (cleanAux fuel cs).length ≤ cs.length := by
  intro fuel
  induction fuel with
  | zero => intro cs; simp [cleanAux]
  | succ n ih =>
    intro cs
    unfold cleanAux
    simp only []
    by_cases hrec : ((splitextL cs).2.map Char.toLower) ∈ recognizedExts
    · simp only [hrec, if_true]
      calc (cleanAux n (splitextL cs).1).length ≤ (splitextL cs).1.length := ih _
        _ ≤ cs.length := Nat.le_of_lt (splitextL_root_lt (recognized_ne_nil hrec))
    · simp [hrec]

/-- After the loop finishes (with enough fuel), the result carries no
recognized extension any more. -/
theorem cleanAux_no_ext : ∀ (fuel : Nat) (cs : List Char), cs.length < fuel →
    ¬(((splitextL (cleanAux fuel cs)).2.map Char.toLower) ∈ recognizedExts) := by
  intro fuel
  induction fuel with
  | zero => intro cs h; omega
  | succ n ih =>
    intro cs h
    unfold cleanAux
    simp only []
    by_cases hrec : ((splitextL cs).2.map Char.toLower) ∈ recognizedExts
    · simp only [hrec, if_true]
      exact ih _ (by
        have := splitextL_root_lt (recognized_ne_nil hrec)
        omega)
    · simp [hrec]

/-- The loop only ever removes whole recognized extensions: the input is
the result followed by a chain of stripped extension suffixes. -/
theorem cleanAux_strips : ∀ (fuel : Nat) (cs : List Char),
    ∃ exts : List (List Char),
      (∀ e ∈ exts, e.map Char.toLower ∈ recognizedExts) ∧
      cs = cleanAux fuel cs ++ exts.flatten := by
  intro fuel
  induction fuel with
  | zero => intro cs; exact ⟨[], by simp, by simp [cleanAux]⟩
  | succ n ih =>
    intro cs
    unfold cleanAux
    simp only []
    by_cases hrec : ((splitextL cs).2.map Char.toLower) ∈ recognizedExts
    · simp only [hrec, if_true]
      obtain ⟨exts, hall, hdec⟩ := ih (splitextL cs).1
      refine ⟨exts ++ [(splitextL cs).2], ?_, ?_⟩
      · intro e he
        rcases List.mem_append.mp he with h | h
        · exact hall e h
        · simpa using (by simpa using h) ▸ hrec
      · conv_lhs => rw [← splitextL_append cs]
        rw [List.flatten_append]
        simp only [List.flatten, List.append_nil]
        rw [← List.append_assoc, ← hdec]
    · exact ⟨[], by simp, by simp [hrec]⟩

/-! ## Rgb565Codec lemmas -/

theorem land_248 : ∀ x : Fin 256, x.val &&& 248 = (x.val >>> 3) <<< 3 := by decide

theorem land_252 : ∀ x : Fin 256, x.val &&& 252 = (x.val >>> 2) <<< 2 := by decide

/-- Arithmetic form of the codec on byte inputs: the three truncated
channels, weighted into bit positions 11, 5, 0. -/
theorem toRgb565_eq (r g b : Nat) (hr : r < 256) (hg : g < 256) (hb : b < 256) :
    to_rgb565 r g b = (r >>> 3) * 2048 + (g >>> 2) * 32 + (b >>> 3) := by
  have h1 := land_248 ⟨r, hr⟩
  have h2 := land_252 ⟨g, hg⟩
  unfold to_rgb565
  rw [h1, h2]
  simp only [Nat.shiftLeft_eq, Nat.shiftRight_eq_div_pow] at *
  have e2 : r / 2 ^ 3 * 2 ^ 3 * 2 ^ 8 = 2 ^ 11 * (r / 2 ^ 3) := by ring
  have e1 : g / 2 ^ 2 * 2 ^ 2 * 2 ^ 3 = 2 ^ 5 * (g / 2 ^ 2) := by ring
  rw [e1, e2]
  have s1 : 2 ^ 11 * (r / 2 ^ 3) ||| 2 ^ 5 * (g / 2 ^ 2) =
      2 ^ 11 * (r / 2 ^ 3) + 2 ^ 5 * (g / 2 ^ 2) :=
    (Nat.mul_add_lt_is_or (by omega) _).symm
  rw [s1]
  have s2 : 2 ^ 11 * (r / 2 ^ 3) + 2 ^ 5 * (g / 2 ^ 2) =
      2 ^ 5 * (2 ^ 6 * (r / 2 ^ 3) + g / 2 ^ 2) := by ring
  rw [s2]
  have s3 : 2 ^ 5 * (2 ^ 6 * (r / 2 ^ 3) + g / 2 ^ 2) ||| b / 2 ^ 3 =
      2 ^ 5 * (2 ^ 6 * (r / 2 ^ 3) + g / 2 ^ 2) + b / 2 ^ 3 :=
    (Nat.mul_add_lt_is_or (by omega) _).symm
  rw [s3]
  ring

theorem toRgb565_lt (r g b : Nat) (hr : r < 256) (hg : g < 256) (hb : b < 256) :
    to_rgb565 r g b < 65536 := by
  rw [toRgb565_eq r g b hr hg hb]
  simp only [Nat.shiftRight_eq_div_pow]
  omega

/-! ### Encoder lemmas -/

theorem foldlM_append {α β : Type} (step : List β → α → Option (List β)) (f : α → List β) :
    ∀ (l : List α), (∀ acc a, a ∈ l → step acc a = some (acc ++ f a)) → ∀ acc : List β,
      l.foldlM step acc = some (acc ++ l.flatMap f) := by
  intro l
  induction l with
  | nil => intro _ acc; simp
  | cons a l ih =>
    intro hstep acc
    rw [List.foldlM_cons, hstep acc a (by simp)]
    show (l.foldlM step (acc ++ f a)) = _
    rw [ih (fun acc b hb => hstep acc b (by simp [hb])) (acc ++ f a)]
    simp

theorem rowFlat {α β : Type} (f : α → List β) (d : α) :
    ∀ (w : Nat) (L : List α), w ≤ L.length →
      (List.range w).flatMap (fun x => f (L.getD x d)) = (L.take w).flatMap f := by
  intro w
  induction w with
  | zero => intro L _; simp
  | succ v ih =>
    intro L hw
    cases L with
    | nil => simp at hw
    | cons p L' =>
      rw [List.range_succ_eq_map]
      rw [List.flatMap_cons, List.flatMap_map]
      simp only [Function.comp, List.getD_cons_succ, List.getD_cons_zero]
      rw [ih L' (by simpa using hw)]
      simp

/-- Traversing a row-major grid with `y`/`x` loops and computed indices
visits exactly the pixel list in order. -/
theorem gridFlat {α β : Type} (f : α → List β) (d : α) :
    ∀ (h w : Nat) (L : List α), L.length = w * h →
      (List.range h).flatMap (fun y =>
        (List.range w).flatMap (fun x => f (L.getD (y * w + x) d))) = L.flatMap f := by
  intro h
  induction h with
  | zero =>
    intro w L hL
    have : L = [] := List.length_eq_zero.mp (by simpa using hL)
    simp [this]
  | succ n ih =>
    intro w L hL
    rw [List.range_succ_eq_map]
    rw [List.flatMap_cons, List.flatMap_map]
    simp only [Function.comp, Nat.zero_mul, Nat.zero_add]
    have hdrop : ∀ y x : Nat, L.getD (Nat.succ y * w + x) d = (L.drop w).getD (y * w + x) d := by
      intro y x
      have hidx : Nat.succ y * w + x = w + (y * w + x) := by rw [Nat.succ_mul]; ring
      rw [hidx, List.getD_eq_getElem?_getD, List.getD_eq_getElem?_getD, List.getElem?_drop]
    simp only [hdrop]
    rw [ih w (L.drop w) (by simp [hL, Nat.mul_succ])]
    rw [rowFlat f d w L (by simp [hL, Nat.mul_succ])]
    rw [← List.flatMap_append, List.take_append_drop]

theorem pixelAt_bytes {img : DecodedImage} (hpix : byteTriples img) (x y : Nat) :
    (pixelAt img x y).1 < 256 ∧ (pixelAt img x y).2.1 < 256 ∧ (pixelAt img x y).2.2 < 256 := by
  unfold pixelAt
  rw [List.getD_eq_getElem?_getD]
  cases hel : img.pixels[y * img.w + x]? with
  | none => simp
  | some p =>
    simp only [Option.getD_some]
    exact hpix p (List.getElem?_mem hel)

/-- On byte pixels, every pixel pack succeeds and the body is exactly
the row-major little-endian RGB565 stream. -/
theorem bodyBytes_eq {img : DecodedImage} (hpix : byteTriples img)
    (hlen : img.pixels.length = img.w * img.h) :
    bodyBytes img = some (bodySpec img) := by
  unfold bodyBytes
  have hrow : ∀ acc y, y ∈ List.range img.h →
      (List.range img.w).foldlM (fun acc2 x => do
        let p := pixelAt img x y
        let bs ← packH (to_rgb565 p.1 p.2.1 p.2.2)
        pure (acc2 ++ bs)) acc =
      some (acc ++ (List.range img.w).flatMap (fun x =>
        le16 (to_rgb565 (pixelAt img x y).1 (pixelAt img x y).2.1 (pixelAt img x y).2.2))) := by
    intro acc y _
    apply foldlM_append
    intro acc2 x _
    obtain ⟨h1, h2, h3⟩ := pixelAt_bytes hpix x y
    have hlt := toRgb565_lt _ _ _ h1 h2 h3
    simp only [packH, if_pos hlt]
    rfl
  rw [foldlM_append _ _ (List.range img.h) hrow []]
  rw [List.nil_append]
  unfold bodySpec
  have := gridFlat (fun p : Nat × Nat × Nat => le16 (to_rgb565 p.1 p.2.1 p.2.2))
    (0, 0, 0) img.h img.w img.pixels hlen
  rw [← this]
  rfl

/-- When `2*w` and `h` fit in a uint16, the header is exactly the
claimed 12-byte layout (note `(w*16+7)/8 = w*2`). -/
theorem headerBytes_eq {w h : Nat} (hw : w * 2 < 65536) (hh : h < 65536) :
    headerBytes w h = some (headerSpec w h) := by
  have hstride : (w * 16 + 7) / 8 = w * 2 := by omega
  have hw' : w < 65536 := by omega
  simp only [headerBytes, packB, packH, hstride, if_pos hw', if_pos hh, if_pos hw,
    if_pos (show (0x19 : Nat) < 256 by omega), if_pos (show (0x12 : Nat) < 256 by omega),
    if_pos (show (0 : Nat) < 65536 by omega)]
  simp [headerSpec, le16]

theorem bodySpec_length (img : DecodedImage) :
    (bodySpec img).length = img.pixels.length * 2 := by
  unfold bodySpec
  induction img.pixels with
  | nil => simp
  | cons p l ih => simp [le16] at *; omega

/-- Shape of every yielded pair: numeric zoom and x segments, a
case-insensitive `.png` filename, and the normalized `.bin` destination
in the mirrored directory. -/
theorem iter_tile_paths_mem {inRoot outRoot : List String} {fs : List (String × FsNode)}
    {pr : List String × List String} (h : pr ∈ iter_tile_paths inRoot outRoot fs) :
    ∃ zoom x_tile y_file,
      isdigit zoom = true ∧ isdigit x_tile = true ∧ endsWithPng y_file = true ∧
      pr.1 = inRoot ++ [zoom, x_tile, y_file] ∧
      pr.2 = outRoot ++ [zoom, x_tile, clean_tile_name y_file ++ ".bin"] := by
  unfold iter_tile_paths at h
  obtain ⟨ze, _, hz⟩ := List.mem_flatMap.mp h
  obtain ⟨zname, znode⟩ := ze
  cases znode with
  | file => simp at hz
  | dir zentries =>
    by_cases hzd : isdigit zname = true
    · simp only [hzd, if_true] at hz
      obtain ⟨xe, _, hx⟩ := List.mem_flatMap.mp hz
      obtain ⟨xname, xnode⟩ := xe
      cases xnode with
      | file => simp at hx
      | dir xentries =>
        by_cases hxd : isdigit xname = true
        · simp only [hxd, if_true] at hx
          obtain ⟨ye, _, hy⟩ := List.mem_flatMap.mp hx
          by_cases hpng : endsWithPng ye.1 = true
          · simp only [hpng, if_true] at hy
            rcases List.mem_singleton.mp hy with rfl
            exact ⟨zname, xname, ye.1, hzd, hxd, hpng, rfl, rfl⟩
          · simp [hpng] at hy
        · simp [hxd] at hx
    · simp [hzd] at hz

/-! ## Supporting lemmas for the claims -/

/-- A string whose split has no recognized extension is a fixed point of
one loop pass. -/
theorem cleanAux_fixed {cs : List Char}
    (h : ¬(((splitextL cs).2.map Char.toLower) ∈ recognizedExts)) (fuel : Nat) :
    cleanAux (fuel + 1) cs = cs := by
  unfold cleanAux
  simp [h]

theorem str_append_right_cancel {a b t : String} (h : a ++ t = b ++ t) : a = b := by
  apply String.ext
  have hd := congrArg String.data h
  rw [String.data_append, String.data_append] at hd
  exact List.append_cancel_right hd

theorem packH_isSome (n : Nat) : (packH n).isSome ↔ n < 65536 := by
  unfold packH
  split <;> simp_all

/-! ## Claim theorems -/

/-- C2: for every r, g, b in 0..255, the RGB565 codec returns a 16-bit
value whose bits 15-11 are the top 5 bits of r, bits 10-5 the top 6 bits
of g, bits 4-0 the top 5 bits of b, with low-order channel bits
truncated; in particular encode(0,0,0) = 0x0000 and
encode(255,255,255) = 0xFFFF. -/
theorem claim_C2 (r g b : Nat) (hr : r < 256) (hg : g < 256) (hb : b < 256) :
    to_rgb565 r g b < 65536 ∧
    (to_rgb565 r g b) >>> 11 = r >>> 3 ∧
    ((to_rgb565 r g b) >>> 5) % 64 = g >>> 2 ∧
    (to_rgb565 r g b) % 32 = b >>> 3 ∧
    to_rgb565 0 0 0 = 0x0000 ∧ to_rgb565 255 255 255 = 0xFFFF := by
  rw [toRgb565_eq r g b hr hg hb]
  simp only [Nat.shiftRight_eq_div_pow]
  refine ⟨by omega, by omega, by omega, by omega, by decide, by decide⟩

theorem claim_C2_witness :
    to_rgb565 200 100 50 < 65536 ∧
    (to_rgb565 200 100 50) >>> 11 = 200 >>> 3 ∧
    ((to_rgb565 200 100 50) >>> 5) % 64 = 100 >>> 2 ∧
    (to_rgb565 200 100 50) % 32 = 50 >>> 3 ∧
    to_rgb565 0 0 0 = 0x0000 ∧ to_rgb565 255 255 255 = 0xFFFF :=
  claim_C2 200 100 50 (by decide) (by decide) (by decide)

/-- C9: the name normalizer is idempotent. -/
theorem claim_C9 (s : String) :
    clean_tile_name (clean_tile_name s) = clean_tile_name s := by
  unfold clean_tile_name
  have hno := cleanAux_no_ext (s.data.length + 1) s.data (by omega)
  exact congrArg String.mk (cleanAux_fixed hno _)

/-- C8: the normalizer repeatedly strips the last extension while it is
one of {png, bin, jpg, jpeg} case-insensitively, stopping at the first
unrecognized extension or when none remains: the input is the result
followed by a chain of recognized extensions, the result has no
recognized extension left, and the three cited examples hold. -/
theorem claim_C8 (s : String) :
    (∃ exts : List (List Char),
      (∀ e ∈ exts, e.map Char.toLower ∈ recognizedExts) ∧
      s.data = (clean_tile_name s).data ++ exts.flatten) ∧
    ¬(((splitextL (clean_tile_name s).data).2.map Char.toLower) ∈ recognizedExts) ∧
    clean_tile_name "tile.png" = "tile" ∧
    clean_tile_name "tile.PNG.bin" = "tile" ∧
    clean_tile_name "tile.data" = "tile.data" := by
  refine ⟨?_, ?_, by decide, by decide, by decide⟩
  · obtain ⟨exts, hall, hdec⟩ := cleanAux_strips (s.data.length + 1) s.data
    refine ⟨exts, hall, ?_⟩
    conv_lhs => rw [hdec]
    rfl
  · exact cleanAux_no_ext (s.data.length + 1) s.data (by omega)

/-- C10 as stated is false: a width of 32768 fits in a uint16, but its
stride `w*2 = 65536` does not, and `struct.pack("<H", stride)` raises,
so the header pack fails. -/
theorem claim_C10_counterexample :
    (32768 : Nat) < 65536 ∧ packH ((32768 * 16 + 7) / 8) = none ∧
    headerBytes 32768 0 = none := by decide

/-- C10 amended: pixel packs always succeed on byte channels, and the
width/height packs succeed for dimensions below 2^16, but the stride
pack succeeds exactly when the width is below 2^15. -/
theorem claim_C10 (r g b w h : Nat) (hr : r < 256) (hg : g < 256) (hb : b < 256)
    (hw : w < 65536) (hh : h < 65536) :
    (packH (to_rgb565 r g b)).isSome ∧ (packH w).isSome ∧ (packH h).isSome ∧
    ((packH ((w * 16 + 7) / 8)).isSome ↔ w < 32768) := by
  refine ⟨?_, ?_, ?_, ?_⟩
  · exact (packH_isSome _).mpr (toRgb565_lt r g b hr hg hb)
  · exact (packH_isSome _).mpr hw
  · exact (packH_isSome _).mpr hh
  · rw [packH_isSome]; omega

theorem claim_C10_witness :
    (packH (to_rgb565 200 100 50)).isSome ∧ (packH 1000).isSome ∧ (packH 2000).isSome ∧
    ((packH ((1000 * 16 + 7) / 8)).isSome ↔ 1000 < 32768) :=
  claim_C10 200 100 50 1000 2000 (by decide) (by decide) (by decide) (by decide) (by decide)

/-- C1 as stated is false: width 32768 and height 0 both fit in a
uint16 and the (empty) pixel data is consistent, yet the encoder raises
on packing the stride instead of producing the claimed 12-byte output. -/
theorem claim_C1_counterexample :
    (32768 : Nat) < 65536 ∧ (0 : Nat) < 65536 ∧
    make_lvgl_bin_bytes ⟨32768, 0, []⟩ = none := by decide

/-- C1 amended: for widths with `2*w` still a uint16 (w ≤ 32767), a
uint16 height, and byte pixel data of length w*h, the encoder output is
exactly the claimed 12-byte little-endian header followed by the
row-major 2-byte little-endian RGB565 stream, with total length
`12 + w*h*2`. -/
theorem claim_C1 (img : DecodedImage) (hw : img.w * 2 < 65536) (hh : img.h < 65536)
    (hpix : byteTriples img) (hlen : img.pixels.length = img.w * img.h) :
    make_lvgl_bin_bytes img = some (headerSpec img.w img.h ++ bodySpec img) ∧
    (make_lvgl_bin_bytes img).map List.length = some (12 + img.w * img.h * 2) := by
  have hb := bodyBytes_eq hpix hlen
  have hhd := headerBytes_eq hw hh
  have h1 : make_lvgl_bin_bytes img = some (headerSpec img.w img.h ++ bodySpec img) := by
    unfold make_lvgl_bin_bytes
    rw [hhd, hb]
    rfl
  refine ⟨h1, ?_⟩
  rw [h1]
  have hl2 : (headerSpec img.w img.h).length = 12 := by simp [headerSpec, le16]
  simp [hl2, bodySpec_length, hlen]

theorem claim_C1_witness :
    make_lvgl_bin_bytes ⟨2, 1, [(255, 0, 0), (0, 0, 255)]⟩ =
      some (headerSpec 2 1 ++ bodySpec ⟨2, 1, [(255, 0, 0), (0, 0, 255)]⟩) ∧
    (make_lvgl_bin_bytes ⟨2, 1, [(255, 0, 0), (0, 0, 255)]⟩).map List.length =
      some (12 + 2 * 1 * 2) :=
  claim_C1 ⟨2, 1, [(255, 0, 0), (0, 0, 255)]⟩ (by decide) (by decide)
    (by intro p hp; fin_cases hp <;> simp) (by decide)

/-- C3 as stated is false: the encoder hands the file two buffers in two
separate `write` calls (header, then body), not one full-buffer write. -/
theorem claim_C3_counterexample :
    (make_lvgl_bin_writes ⟨1, 1, [(0, 0, 0)]⟩).map List.length = some 2 ∧
    (make_lvgl_bin_writes ⟨1, 1, [(0, 0, 0)]⟩).map List.length ≠ some 1 := by decide

/-- C3 amended: the output is fully encoded in memory before the file is
opened — a failure during encoding performs no write at all — and is
then written in exactly two consecutive write calls (header, body) whose
concatenation is the complete encoding. -/
theorem claim_C3 (img : DecodedImage) :
    (make_lvgl_bin_writes img).map List.flatten = make_lvgl_bin_bytes img ∧
    ((make_lvgl_bin_writes img).isSome ↔ (make_lvgl_bin_bytes img).isSome) ∧
    (make_lvgl_bin_writes img).map List.length = (make_lvgl_bin_bytes img).map (fun _ => 2) := by
  unfold make_lvgl_bin_writes make_lvgl_bin_bytes
  cases headerBytes img.w img.h <;> cases bodyBytes img <;> simp

/-- C5 as stated is false: when the destination is a non-empty
directory, `os.rmdir` raises and the task fails instead of recovering. -/
theorem claim_C5_counterexample :
    make_lvgl_bin_run ⟨1, 1, [(0, 0, 0)]⟩ (DestState.dir false) =
      Except.error "OSError: directory not empty" := rfl

/-- C5 amended: a destination occupied by an *empty* directory is
recovered — the directory is removed and the write proceeds — while a
non-empty directory there makes the task fail. -/
theorem claim_C5 (img : DecodedImage) (bs : List Nat)
    (henc : make_lvgl_bin_bytes img = some bs) :
    make_lvgl_bin_run img (DestState.dir true) = Except.ok (DestState.file bs) ∧
    ∃ e, make_lvgl_bin_run img (DestState.dir false) = Except.error e := by
  unfold make_lvgl_bin_run
  rw [henc]
  exact ⟨rfl, "OSError: directory not empty", rfl⟩

theorem claim_C5_witness :
    make_lvgl_bin_run ⟨1, 1, [(0, 0, 0)]⟩ (DestState.dir true) =
      Except.ok (DestState.file [25, 18, 0, 0, 1, 0, 1, 0, 2, 0, 0, 0, 0, 0]) ∧
    ∃ e, make_lvgl_bin_run ⟨1, 1, [(0, 0, 0)]⟩ (DestState.dir false) = Except.error e :=
  claim_C5 ⟨1, 1, [(0, 0, 0)]⟩ [25, 18, 0, 0, 1, 0, 1, 0, 2, 0, 0, 0, 0, 0] (by decide)

/-- C6: with a non-empty task list run serially (`jobs <= 1` branch),
the loop produces exactly one event per task, in list order; a failing
task yields a report carrying its source path and reason, and every
remaining task still runs. -/
theorem claim_C6 (exec : Task → Except String Unit) (tasks : List Task)
    (_hne : tasks ≠ []) :
    (runSerial exec tasks).length = tasks.length ∧
    ∀ i (hi : i < tasks.length),
      (runSerial exec tasks)[i]? =
        some (match exec (tasks.get ⟨i, hi⟩) with
          | .ok _ => Event.ok (tasks.get ⟨i, hi⟩)
          | .error e => Event.failed (tasks.get ⟨i, hi⟩).inp e) := by
  clear _hne
  constructor
  · induction tasks with
    | nil => rfl
    | cons t ts ih => simp [runSerial, ih]
  · induction tasks with
    | nil => intro i hi; simp at hi
    | cons t ts ih =>
      intro i hi
      cases i with
      | zero => simp [runSerial]
      | succ j =>
        have := ih j (by simpa using hi)
        simpa [runSerial] using this

theorem claim_C6_witness :
    (runSerial (fun t => if t.inp = "bad" then .error "boom" else .ok ())
      [⟨"a", "b"⟩, ⟨"bad", "c"⟩, ⟨"d", "e"⟩]).length = 3 ∧
    (runSerial (fun t => if t.inp = "bad" then .error "boom" else .ok ())
      [⟨"a", "b"⟩, ⟨"bad", "c"⟩, ⟨"d", "e"⟩])[1]? = some (Event.failed "bad" "boom") ∧
    (runSerial (fun t => if t.inp = "bad" then .error "boom" else .ok ())
      [⟨"a", "b"⟩, ⟨"bad", "c"⟩, ⟨"d", "e"⟩])[2]? = some (Event.ok ⟨"d", "e"⟩) := by
  have h := claim_C6 (fun t => if t.inp = "bad" then .error "boom" else .ok ())
    [⟨"a", "b"⟩, ⟨"bad", "c"⟩, ⟨"d", "e"⟩] (by decide)
  exact ⟨h.1, (h.2 1 (by decide)).trans (by decide), (h.2 2 (by decide)).trans (by decide)⟩

/-- C7: every pair yielded by discovery has a source path
`inputRoot/zoom/x/file` with numeric zoom and x directory segments and a
case-insensitive `.png` file name, and a destination path
`outputRoot/zoom/x/(normalized name).bin`; entries under non-numeric
zoom or x names are never yielded. -/
theorem claim_C7 {inRoot outRoot : List String} {fs : List (String × FsNode)}
    {pr : List String × List String} (h : pr ∈ iter_tile_paths inRoot outRoot fs) :
    ∃ zoom x_tile y_file,
      isdigit zoom = true ∧ isdigit x_tile = true ∧ endsWithPng y_file = true ∧
      pr.1 = inRoot ++ [zoom, x_tile, y_file] ∧
      pr.2 = outRoot ++ [zoom, x_tile, clean_tile_name y_file ++ ".bin"] :=
  iter_tile_paths_mem h

theorem claim_C7_witness :
    (["in", "7", "41", "5.png"], ["out", "7", "41", "5.bin"]) ∈
      iter_tile_paths ["in"] ["out"]
        [("junk", FsNode.dir [("41", FsNode.dir [("5.png", FsNode.file)])]),
         ("7", FsNode.dir [("41", FsNode.dir [("5.png", FsNode.file), ("readme.txt", FsNode.file)])])] ∧
    ∃ zoom x_tile y_file,
      isdigit zoom = true ∧ isdigit x_tile = true ∧ endsWithPng y_file = true ∧
      (["in", "7", "41", "5.png"] : List String) = ["in"] ++ [zoom, x_tile, y_file] ∧
      (["out", "7", "41", "5.bin"] : List String) =
        ["out"] ++ [zoom, x_tile, clean_tile_name y_file ++ ".bin"] :=
  ⟨by decide,
    @claim_C7 ["in"] ["out"]
      [("junk", FsNode.dir [("41", FsNode.dir [("5.png", FsNode.file)])]),
       ("7", FsNode.dir [("41", FsNode.dir [("5.png", FsNode.file), ("readme.txt", FsNode.file)])])]
      (["in", "7", "41", "5.png"], ["out", "7", "41", "5.bin"]) (by decide)⟩

/-- C4 as stated is false: two distinct source files `2.PNG` and `2.png`
in the same x directory are both discovered and are mapped to the same
destination path. -/
theorem claim_C4_counterexample :
    iter_tile_paths ["in"] ["out"]
      [("0", FsNode.dir [("1", FsNode.dir [("2.PNG", FsNode.file), ("2.png", FsNode.file)])])] =
      [(["in", "0", "1", "2.PNG"], ["out", "0", "1", "2.bin"]),
       (["in", "0", "1", "2.png"], ["out", "0", "1", "2.bin"])] ∧
    (["in", "0", "1", "2.PNG"], ["out", "0", "1", "2.bin"]) ≠
      ((["in", "0", "1", "2.png"], ["out", "0", "1", "2.bin"]) :
        List String × List String) := by
  constructor
  · decide
  · decide

/-- C4 amended: destination paths are not injective across the yielded
list; two yielded pairs share a destination path only when they lie in
the same zoom/x directory and their file names normalize to the same
base name, and distinct pairs collide only through distinct file names
with equal normalized bases. -/
theorem claim_C4 {inRoot outRoot : List String} {fs : List (String × FsNode)}
    {p1 p2 : List String × List String}
    (h1 : p1 ∈ iter_tile_paths inRoot outRoot fs)
    (h2 : p2 ∈ iter_tile_paths inRoot outRoot fs)
    (hdest : p1.2 = p2.2) :
    ∃ zoom x_tile f1 f2,
      p1.1 = inRoot ++ [zoom, x_tile, f1] ∧
      p2.1 = inRoot ++ [zoom, x_tile, f2] ∧
      clean_tile_name f1 = clean_tile_name f2 ∧
      (p1 ≠ p2 → f1 ≠ f2) := by
  obtain ⟨z1, x1, f1, _, _, _, hs1, hd1⟩ := iter_tile_paths_mem h1
  obtain ⟨z2, x2, f2, _, _, _, hs2, hd2⟩ := iter_tile_paths_mem h2
  rw [hd1, hd2] at hdest
  have hseg : ([z1, x1, clean_tile_name f1 ++ ".bin"] : List String) =
      [z2, x2, clean_tile_name f2 ++ ".bin"] := List.append_cancel_left hdest
  obtain ⟨hz, hx, hbase⟩ :
      z1 = z2 ∧ x1 = x2 ∧ clean_tile_name f1 ++ ".bin" = clean_tile_name f2 ++ ".bin" := by
    simpa using hseg
  have hclean : clean_tile_name f1 = clean_tile_name f2 :=
    str_append_right_cancel hbase
  refine ⟨z1, x1, f1, f2, hs1, by rw [hs2, hz, hx], hclean, ?_⟩
  intro hne hf
  apply hne
  apply Prod.ext
  · rw [hs1, hs2, hz, hx, hf]
  · rw [hd1, hd2, hz, hx, hf]

theorem claim_C4_witness :
    ∃ zoom x_tile f1 f2,
      (["in", "0", "1", "2.PNG"] : List String) = ["in"] ++ [zoom, x_tile, f1] ∧
      (["in", "0", "1", "2.png"] : List String) = ["in"] ++ [zoom, x_tile, f2] ∧
      clean_tile_name f1 = clean_tile_name f2 ∧
      (((["in", "0", "1", "2.PNG"], ["out", "0", "1", "2.bin"]) :
          List String × List String) ≠
        (["in", "0", "1", "2.png"], ["out", "0", "1", "2.bin"]) → f1 ≠ f2) :=
  @claim_C4 ["in"] ["out"]
    [("0", FsNode.dir [("1", FsNode.dir [("2.PNG", FsNode.file), ("2.png", FsNode.file)])])]
    (["in", "0", "1", "2.PNG"], ["out", "0", "1", "2.bin"])
    (["in", "0", "1", "2.png"], ["out", "0", "1", "2.bin"])
    (by decide) (by decide) (by decide)

end MapTiles
